import Mathlib

set_option maxRecDepth 8000

/-!
Verification development for the Buildfile tool: a shallow embedding of
`src/parsing/parser.rs` (the AST builder) and `src/execution/cmd.rs` (the
dependency-walking executor), together with theorems checking the
natural-language specification against this embedding.

Modelling conventions:
* Rust panics (`panic!`, `.unwrap()`, `.expect(..)`, and overflow-checked
  `usize` subtraction as in the default debug profile) are modelled as
  explicit error constructors, distinct from the four classified
  `ErrorType` parse errors that `report_err` raises.
* `process::exit(code)` is modelled as an `Out.exited code` outcome that
  short-circuits every continuation, mirroring immediate process death.
* The filesystem is a map from path strings to optional modification
  times (`none` = the path does not exist); a shell invocation is an
  oracle mapping the current filesystem and rendered command line to a
  new filesystem plus the child's exit status and captured output.
* The unbounded recursion of `needs_rebuild`/`execute_job_if_needed`
  (no cycle guard in the source) is made total with a fuel parameter;
  `Out.fuelOut` marks fuel exhaustion and is never confused with any
  behaviour of the source program.
-/

namespace Buildfile

/-- Token classification from the external lexer. The parser inspects
only `Literal`, `Colon` and `Equal`; `OtherKind` stands for every other
kind the lexer may produce. -/
inductive TokenType where
  | Literal
  | Colon
  | Equal
  | OtherKind
  deriving DecidableEq, Repr

/-- A lexed token: its text and its classification (source positions are
irrelevant to the parsed result and are omitted). -/
structure Token where
  str : String
  typ : TokenType
  deriving DecidableEq, Repr

/-- One source line of tokens (`Tokens` in the source). -/
abbrev Tokens := List Token

/-- The compound-assignment operator of an `Expr` item. -/
inductive Operation where
  | PlusEqual
  | MinusEqual
  deriving DecidableEq, Repr

/-- AST items produced by the parser (`Item` in `parsing/ast.rs`): simple
declaration, compound assignment, job rule, conditional block. -/
inductive Item where
  | Decl (left : Token) (value : List Token)
  | Expr (left : Token) (op : Operation) (right : Token)
  | Job (target : Token) (dependencies : List Token) (body : List Tokens)
  | If (rev : Bool) (left : Token) (right : Token)
       (body : List Item) (elseBody : List Item)

/-- Whether an item is a `Job` rule. -/
def Item.isJob : Item → Bool
  | .Job _ _ _ => true
  | _ => false

/-- Parse-time failure. The first four constructors are the classified
`ErrorType` values raised through `report_err`; the `fatal*` constructors
model the parser's panics: `fatalNoRight` is the
`panic!("Expected right side after expression")` in `parse_eq`,
`fatalUnwrap` the `.unwrap()` of a `None` left side, `fatalArith` an
overflow-checked `usize` subtraction (`eq_idx - 1` / `eq_idx - 2`
underflowing), and `fatalIfNoLeft`/`fatalIfNoRight` the panics for an
`ifeq`/`ifneq` line with fewer than three tokens. -/
inductive ErrorType where
  | noClosingEndif
  | unexpectedToken
  | jobWithoutTarget
  | expectedOnlyOneTokenOnTheLeftSide
  | fatalNoRight
  | fatalUnwrap
  | fatalArith
  | fatalIfNoLeft
  | fatalIfNoRight
  deriving DecidableEq, Repr

/-- Whether a failure is one of the four classified `ErrorType` parse
errors (as opposed to a modelled panic). -/
def ErrorType.isClassified : ErrorType → Bool
  | .noClosingEndif => true
  | .unexpectedToken => true
  | .jobWithoutTarget => true
  | .expectedOnlyOneTokenOnTheLeftSide => true
  | _ => false

/-- Rust's `str::ends_with` for string suffixes, stated over the
underlying character lists so that concrete instances evaluate inside the
kernel. -/
def ends_with (s suffix : String) : Bool :=
  suffix.data.isSuffixOf s.data

/-- `Parser::parse_eq`: the shared assignment sub-parser, given the line
and the index of its `=` token. Checks the token immediately left of `=`
for a `+`/`-` compound marker (bare or as a trailing character); the bare
`-` case looks the right operand up at `eq_idx + 2` (one further than the
bare `+` case), faithfully preserving the source's asymmetry. Falls
through to a plain `Decl` whose value is every token after `=`. -/
def parse_eq (first : Token) (line : Tokens) (eqIdx : Nat) : Except ErrorType Item :=
  if eqIdx = 0 then .error .fatalArith else
  match line.get? (eqIdx - 1) with
  | some token =>
    if token.str = "+" then
      match line.get? (eqIdx + 1) with
      | none => .error .fatalNoRight
      | some rightSide =>
        if eqIdx < 2 then .error .fatalArith
        else match line.get? (eqIdx - 2) with
        | none => .error .fatalUnwrap
        | some leftSide => .ok (.Expr leftSide .PlusEqual rightSide)
    else if ends_with token.str "+" then
      match line.get? (eqIdx + 1) with
      | none => .error .fatalNoRight
      | some rightSide => .ok (.Expr token .PlusEqual rightSide)
    else if token.str = "-" then
      match line.get? (eqIdx + 2) with
      | none => .error .fatalNoRight
      | some rightSide =>
        if eqIdx < 2 then .error .fatalArith
        else match line.get? (eqIdx - 2) with
        | none => .error .fatalUnwrap
        | some leftSide => .ok (.Expr leftSide .MinusEqual rightSide)
    else if ends_with token.str "-" then
      match line.get? (eqIdx + 1) with
      | none => .error .fatalNoRight
      | some rightSide => .ok (.Expr token .MinusEqual rightSide)
    else .ok (.Decl first (line.drop (eqIdx + 1)))
  | none => .ok (.Decl first (line.drop (eqIdx + 1)))

/-- Whether a line contains a token whose text is `else`. -/
def line_has_else (line : Tokens) : Bool :=
  line.any fun t => decide (t.str = "else")

/-- Whether a line contains a token whose text is `endif`. -/
def line_has_endif (line : Tokens) : Bool :=
  line.any fun t => decide (t.str = "endif")

/-- What the conditional-body scan does with one accumulated line
(`parser.rs` lines 186-188): find the first `=` token, take the token
immediately left of it, and run `parse_eq`. `none` means the line is
silently skipped (no `=` token, or — release-profile wrap — the left
neighbour lookup failed); `some (.error _)` is a panic. -/
def body_line_item (line : Tokens) : Option (Except ErrorType Item) :=
  match line.findIdx? (fun t => decide (t.typ = TokenType.Equal)) with
  | none => none
  | some eqIdx =>
    if eqIdx = 0 then some (.error .fatalArith)
    else match line.get? (eqIdx - 1) with
    | none => none
    | some first => some (parse_eq first line eqIdx)

/-- The `while let Some((_, line)) = self.iter.next()` loop of the
`ifeq`/`ifneq` branch of `parse_line`: consume lines, treating any line
containing `else` purely as the else marker, stopping at the first other
line containing `endif`, and accumulating assignment items into the then-
or else-body according to the flag. Exhausting the stream without an
`endif` is the classified `NoClosingEndif` error. Returns the two bodies
and the unconsumed remainder of the stream. -/
def scan_if_body : List (Nat × Tokens) → List Item → List Item → Bool →
    Except ErrorType (List Item × List Item × List (Nat × Tokens))
  | [], _, _, _ => .error .noClosingEndif
  | (_, line) :: rest, body, elseBody, elseFlag =>
    if line_has_else line then
      scan_if_body rest body elseBody true
    else if line_has_endif line then
      .ok (body, elseBody, rest)
    else match body_line_item line with
    | none => scan_if_body rest body elseBody elseFlag
    | some (.error e) => .error e
    | some (.ok item) =>
      if elseFlag then scan_if_body rest body (elseBody ++ [item]) elseFlag
      else scan_if_body rest (body ++ [item]) elseBody elseFlag

/-- The job-body loop of `parse_line`: pull in every immediately
following line whose indentation level is non-zero, stopping at the
first zero-level line. Returns the body lines and the remainder. -/
def take_job_body : List (Nat × Tokens) → List Tokens × List (Nat × Tokens)
  | [] => ([], [])
  | (wc, l) :: rest =>
    if wc = 0 then ([], (wc, l) :: rest)
    else
      let (b, r) := take_job_body rest
      (l :: b, r)

/-- The items accumulated by the conditional-body scan from a run of
lines none of which is an else/endif marker. -/
def body_items (ls : List (Nat × Tokens)) : List Item :=
  ls.filterMap fun p =>
    match body_line_item p.2 with
    | some (.ok i) => some i
    | _ => none

/-- A line is benign when accumulating it cannot panic: its
`body_line_item` is either a skip or a successfully parsed item. -/
def benign (line : Tokens) : Bool :=
  match body_line_item line with
  | some (.error _) => false
  | _ => true

/-- `Parser::parse` / `Parser::parse_line`: consume the token-line stream
in order, dispatching on the first token of each line, and build the list
of AST items. Fuel makes the recursion structural (each consumed line
costs one unit); `none` is fuel exhaustion, which never happens for
`fuel ≥ length of the stream`. -/
def parse_lines : Nat → List (Nat × Tokens) → List Item →
    Option (Except ErrorType (List Item))
  | _, [], items => some (.ok items)
  | 0, _ :: _, _ => none
  | fuel + 1, (_, line) :: rest, items =>
    match line.head? with
    | none => parse_lines fuel rest items
    | some first =>
      if first.str = "endif" then parse_lines fuel rest items
      else match first.typ with
      | TokenType.Literal =>
        if first.str = "ifeq" ∨ first.str = "ifneq" then
          match scan_if_body rest [] [] false with
          | .error e => some (.error e)
          | .ok (body, elseBody, rest') =>
            let rev := decide (¬ first.str = "ifeq")
            match line.get? 1 with
            | none => some (.error .fatalIfNoLeft)
            | some leftSide =>
              match line.get? 2 with
              | none => some (.error .fatalIfNoRight)
              | some rightSide =>
                parse_lines fuel rest'
                  (items ++ [.If rev leftSide rightSide body elseBody])
        else match line.findIdx? (fun t => decide (t.typ = TokenType.Equal)) with
        | some eqIdx =>
          match parse_eq first line eqIdx with
          | .error e => some (.error e)
          | .ok item => parse_lines fuel rest (items ++ [item])
        | none =>
          match line.findIdx? (fun t => decide (t.typ = TokenType.Colon)) with
          | some colonIdx =>
            if colonIdx > 1 then .some (.error .expectedOnlyOneTokenOnTheLeftSide)
            else
              let (body, rest') := take_job_body rest
              parse_lines fuel rest'
                (items ++ [.Job first (line.drop (colonIdx + 1)) body])
          | none => some (.error .unexpectedToken)
      | TokenType.Colon => some (.error .jobWithoutTarget)
      | _ => some (.error .unexpectedToken)

/-! ## Execution engine (`src/execution/cmd.rs`) -/

/-- A post-expansion job, as the execution engine sees it. -/
structure Job where
  target : String
  dependencies : List String
  body : List (List String)
  deriving DecidableEq, Repr

/-- The filesystem, abstracted to modification times: `fs p = some t`
means path `p` exists with modification time `t`; `none` means it does
not exist. -/
abbrev FS := String → Option Nat

/-- Console activity the executor produces, in order: the echoed command
line before execution, relayed child stderr/stdout, the abnormal-exit
message, the "nothing to do" notice, and the missing-dependency
diagnostic printed before the mtime `unwrap` panics. -/
inductive LogEntry where
  | echoCmd (s : String)
  | childStderr (s : String)
  | abnormalExit (code : Int)
  | childStdout (s : String)
  | nothingToDo (target : String)
  | missingDep (path : String)
  deriving DecidableEq, Repr

/-- Executor state: the filesystem plus the console log so far. -/
structure St where
  fs : FS
  log : List LogEntry

/-- A completed child process: its exit code (`none` = killed by a
signal, no well-defined code) and captured output. -/
structure CmdOutput where
  code : Option Int
  stdout : String
  stderr : String

/-- The shell oracle: running a rendered command line against the current
filesystem yields the new filesystem and the child's result. Launch
always succeeds in this model (the `.expect` on spawn failure is out of
scope of the claims). -/
abbrev Shell := FS → String → FS × CmdOutput

/-- Outcome of an executor computation: normal return, process death via
`exit code`, a panic, or fuel exhaustion (a model artifact standing for
the source's unbounded recursion). -/
inductive Out (α : Type) where
  | ok (a : α) (st : St)
  | exited (code : Nat) (st : St)
  | crashed (st : St)
  | fuelOut

/-- Sequencing of outcomes: `exit`, panics and fuel exhaustion
short-circuit every continuation, as process death does in the source. -/
def Out.bind {α β : Type} : Out α → (α → St → Out β) → Out β
  | .ok a st, f => f a st
  | .exited c st, _ => .exited c st
  | .crashed st, _ => .crashed st
  | .fuelOut, _ => .fuelOut

/-- `self.jobs.iter().find(|j| j.target.eq(dep))`: the first job in the
set whose target equals the dependency name. -/
def find_job (jobs : List Job) (dep : String) : Option Job :=
  jobs.find? fun j => decide (j.target = dep)

/-- `Execute::render_cmd`: tokens of a body line joined with single
spaces into one shell command string. -/
def render_cmd (cmd : List String) : String :=
  String.intercalate " " cmd

/-- One step of the dependency fold in `needs_rebuild`: a dependency that
is the target of another job is executed recursively (contributing no
timestamp); any other dependency name is a filesystem path whose
modification time is collected, a missing path being fatal (diagnostic
logged, then the `unwrap` panics). -/
def dep_step (jobs : List Job) (execDep : St → Job → Out Unit)
    (acc : Out (List Nat)) (dep : String) : Out (List Nat) :=
  acc.bind fun times st =>
    match find_job jobs dep with
    | some j => (execDep st j).bind fun _ st' => .ok times st'
    | none =>
      match st.fs dep with
      | some t => .ok (times ++ [t]) st
      | none => .crashed ⟨st.fs, st.log ++ [.missingDep dep]⟩

/-- The dependency fold of `needs_rebuild`, from an arbitrary initial
accumulator (mirrors `job.dependencies.iter().fold(..)`). -/
def collect_times_from (jobs : List Job) (execDep : St → Job → Out Unit)
    (deps : List String) (init : Out (List Nat)) : Out (List Nat) :=
  deps.foldl (dep_step jobs execDep) init

/-- The dependency fold of `needs_rebuild`, started from the empty list
of collected times. -/
def collect_times (jobs : List Job) (execDep : St → Job → Out Unit)
    (deps : List String) (st : St) : Out (List Nat) :=
  collect_times_from jobs execDep deps (.ok [] st)

/-- The tail of `needs_rebuild` after the dependency fold: a missing
target forces a rebuild; otherwise rebuild iff some collected
(non-job-dependency) modification time strictly exceeds the target's. -/
def finish_rebuild (job : Job) (times : List Nat) (st : St) : Out Bool :=
  match st.fs job.target with
  | none => .ok true st
  | some tt => .ok (times.any fun t => decide (tt < t)) st

/-- `Execute::needs_rebuild`, parametrised by the recursive executor used
for job-type dependencies. -/
def needs_rebuild_with (jobs : List Job) (execDep : St → Job → Out Unit)
    (st : St) (job : Job) : Out Bool :=
  (collect_times jobs execDep job.dependencies st).bind (finish_rebuild job)

/-- The command-line loop of `execute_job_if_needed`: render and echo
each body line, run it through the shell; a well-defined non-zero exit
code relays stderr (when non-empty), prints the abnormal-exit message and
kills the whole process with exit code 1; a zero or undefined (signal)
status relays stdout (when non-empty) and continues with the next
line. -/
def run_body (shell : Shell) : St → List (List String) → Out Unit
  | st, [] => .ok () st
  | st, line :: rest =>
    let rendered := render_cmd line
    let log1 := st.log ++ [.echoCmd rendered]
    match shell st.fs rendered with
    | (fs', out) =>
      match out.code with
      | some code =>
        if code ≠ 0 then
          .exited 1 ⟨fs', (log1 ++
            (if out.stderr = "" then [] else [.childStderr out.stderr])) ++
            [.abnormalExit code]⟩
        else
          run_body shell
            ⟨fs', log1 ++ (if out.stdout = "" then [] else [.childStdout out.stdout])⟩
            rest
      | none =>
        run_body shell
          ⟨fs', log1 ++ (if out.stdout = "" then [] else [.childStdout out.stdout])⟩
          rest

/-- `Execute::execute_job_if_needed`: decide the rebuild (executing
job-type dependencies on the way), then either run the body lines or emit
the "nothing to do" notice. Structural on the fuel bound. -/
def execute_job_if_needed (shell : Shell) (jobs : List Job) :
    Nat → St → Job → Out Unit
  | 0, _, _ => .fuelOut
  | fuel + 1, st, job =>
    match needs_rebuild_with jobs (execute_job_if_needed shell jobs fuel) st job with
    | .ok true st' => run_body shell st' job.body
    | .ok false st' => .ok () ⟨st'.fs, st'.log ++ [.nothingToDo job.target]⟩
    | .exited c st' => .exited c st'
    | .crashed st' => .crashed st'
    | .fuelOut => .fuelOut

/-- `Execute::needs_rebuild` at a given fuel bound for the recursive
execution of job-type dependencies. -/
def needs_rebuild (shell : Shell) (jobs : List Job) (fuel : Nat)
    (st : St) (job : Job) : Out Bool :=
  needs_rebuild_with jobs (execute_job_if_needed shell jobs fuel) st job

/-! ## Concrete sample data used by the witness theorems -/

/-- A literal token with the given text. -/
def tokLit (s : String) : Token := ⟨s, TokenType.Literal⟩

/-- The `:` separator token. -/
def tokColon : Token := ⟨":", TokenType.Colon⟩

/-- The `=` separator token. -/
def tokEq : Token := ⟨"=", TokenType.Equal⟩

/-- A sample filesystem: `in.c` (mtime 5) and `out` (mtime 3) exist. -/
def fsW : FS := fun s => if s = "in.c" then some 5 else if s = "out" then some 3 else none

/-- A sample initial executor state over `fsW`. -/
def stExample : St := ⟨fsW, []⟩

/-- A shell whose children always succeed and leave the filesystem
unchanged. -/
def shellNopW : Shell := fun fs _ => (fs, ⟨some 0, "", ""⟩)

/-- A shell whose children always exit with code 2 and stderr `boom`. -/
def shellFailW : Shell := fun fs _ => (fs, ⟨some 2, "", "boom"⟩)

/-- A sample job whose only dependency is a plain file. -/
def jobPlainW : Job := ⟨"out", ["in.c"], [["cc"]]⟩

/-- A sample job with a missing target and a plain-file dependency. -/
def jobMissW : Job := ⟨"out2", ["in.c"], [["cc"]]⟩

/-- A sample dependency job (empty body, no dependencies). -/
def jobDepW : Job := ⟨"a", [], []⟩

/-- A sample job set containing only `jobDepW`. -/
def jobsW : List Job := [jobDepW]

/-- A sample job depending on `jobDepW`'s target. -/
def jobChainW : Job := ⟨"out", ["a"], [["touch", "out"]]⟩

/-! ## Helper lemmas -/

/-- The job-body loop takes exactly the maximal run of non-zero-level
lines and leaves the rest, the first zero-level line included. -/
theorem take_job_body_eq (ls : List (Nat × Tokens)) :
    take_job_body ls =
      ((ls.takeWhile fun p => decide (¬ p.1 = 0)).map Prod.snd,
       ls.dropWhile fun p => decide (¬ p.1 = 0)) := by
  induction ls with
  | nil => rfl
  | cons hd tl ih =>
    obtain ⟨wc, l⟩ := hd
    by_cases h : wc = 0
    · simp [take_job_body, h, List.takeWhile_cons, List.dropWhile_cons]
    · simp [take_job_body, h, List.takeWhile_cons, List.dropWhile_cons, ih]

/-- If the first token of a line is not an `=` token, the first `=` token
is not at index 0. -/
theorem findIdx_eq_ne_zero (line : Tokens) (first : Token) (eqIdx : Nat)
    (h1 : line.head? = some first)
    (h2 : first.typ = TokenType.Literal)
    (h6 : line.findIdx? (fun t => decide (t.typ = TokenType.Equal)) = some eqIdx) :
    eqIdx ≠ 0 := by
  cases line with
  | nil => simp at h1
  | cons a tl =>
    rw [List.head?_cons, Option.some_inj] at h1
    subst h1
    rw [List.findIdx?_cons] at h6
    rw [if_neg (by simp [h2])] at h6
    rw [List.findIdx?_succ] at h6
    rcases Option.map_eq_some.mp h6 with ⟨k, _, hk⟩
    omega

/-- Body-scan exhaustion: if no remaining line (other than `else`-marker
lines, which are consumed without an `endif` check) contains `endif`, and
every accumulated line is benign, the scan runs off the end of the stream
and reports `NoClosingEndif`. -/
theorem scan_if_body_no_endif (ls : List (Nat × Tokens))
    (h : ∀ p ∈ ls, (line_has_else p.2 = true ∨ line_has_endif p.2 = false) ∧
          (line_has_else p.2 = false → benign p.2 = true)) :
    ∀ b e f, scan_if_body ls b e f = .error .noClosingEndif := by
  induction ls with
  | nil => intro b e f; rfl
  | cons hd tl ih =>
    intro b e f
    obtain ⟨w, l⟩ := hd
    obtain ⟨h1, h2⟩ := h (w, l) (List.mem_cons_self _ _)
    have htl := fun p hp => h p (List.mem_cons_of_mem _ hp)
    by_cases hel : line_has_else l
    · rw [scan_if_body, if_pos hel]
      exact ih htl b e true
    · replace hel : line_has_else l = false := by
        simpa using hel
      have hen : line_has_endif l = false := by
        rcases h1 with h1 | h1
        · rw [hel] at h1; cases h1
        · exact h1
      have hb := h2 hel
      cases hbli : body_line_item l with
      | none =>
        simp only [scan_if_body, hel, hen, hbli, Bool.false_eq_true, if_false]
        exact ih htl b e f
      | some r =>
        cases r with
        | error e' => rw [benign, hbli] at hb; cases hb
        | ok item =>
          simp only [scan_if_body, hel, hen, hbli, Bool.false_eq_true, if_false]
          cases f
          · simp only [Bool.false_eq_true, if_false]
            exact ih htl (b ++ [item]) e false
          · simp only [if_pos rfl]
            exact ih htl b (e ++ [item]) true

/-- `body_items` distributes over cons. -/
theorem body_items_cons (w : Nat) (l : Tokens) (tl : List (Nat × Tokens)) :
    body_items ((w, l) :: tl) =
      (match body_line_item l with
       | some (.ok i) => [i]
       | _ => []) ++ body_items tl := by
  rw [body_items, body_items, List.filterMap_cons]
  cases hbli : body_line_item l with
  | none => simp
  | some r => cases r with
    | error e => simp
    | ok i => simp

/-- Scanning past a benign run of non-marker lines with the else flag
still clear appends their items to the then-body. -/
theorem scan_if_body_append_false (pre : List (Nat × Tokens))
    (h : ∀ p ∈ pre, line_has_else p.2 = false ∧ line_has_endif p.2 = false ∧
        benign p.2 = true) :
    ∀ ls b e, scan_if_body (pre ++ ls) b e false =
      scan_if_body ls (b ++ body_items pre) e false := by
  induction pre with
  | nil => intro ls b e; simp [body_items]
  | cons hd tl ih =>
    intro ls b e
    obtain ⟨w, l⟩ := hd
    obtain ⟨h1, h2, h3⟩ := h (w, l) (List.mem_cons_self _ _)
    have htl := fun p hp => h p (List.mem_cons_of_mem _ hp)
    rw [List.cons_append, body_items_cons]
    cases hbli : body_line_item l with
    | none =>
      simp only [scan_if_body, h1, h2, hbli, Bool.false_eq_true, if_false]
      rw [ih htl ls b e]; simp
    | some r =>
      cases r with
      | error e' => rw [benign, hbli] at h3; cases h3
      | ok item =>
        simp only [scan_if_body, h1, h2, hbli, Bool.false_eq_true, if_false]
        rw [ih htl ls (b ++ [item]) e]
        simp

/-- Scanning past a benign run of non-marker lines with the else flag set
appends their items to the else-body. -/
theorem scan_if_body_append_true (pre : List (Nat × Tokens))
    (h : ∀ p ∈ pre, line_has_else p.2 = false ∧ line_has_endif p.2 = false ∧
        benign p.2 = true) :
    ∀ ls b e, scan_if_body (pre ++ ls) b e true =
      scan_if_body ls b (e ++ body_items pre) true := by
  induction pre with
  | nil => intro ls b e; simp [body_items]
  | cons hd tl ih =>
    intro ls b e
    obtain ⟨w, l⟩ := hd
    obtain ⟨h1, h2, h3⟩ := h (w, l) (List.mem_cons_self _ _)
    have htl := fun p hp => h p (List.mem_cons_of_mem _ hp)
    rw [List.cons_append, body_items_cons]
    cases hbli : body_line_item l with
    | none =>
      simp only [scan_if_body, h1, h2, hbli, Bool.false_eq_true, if_false]
      rw [ih htl ls b e]; simp
    | some r =>
      cases r with
      | error e' => rw [benign, hbli] at h3; cases h3
      | ok item =>
        simp only [scan_if_body, h1, h2, hbli, Bool.false_eq_true, if_false,
          if_pos rfl]
        rw [ih htl ls b (e ++ [item])]
        simp

/-- Once the else flag is set, the then-body never grows again. -/
theorem scan_if_body_then_frozen (ls : List (Nat × Tokens)) :
    ∀ b e b' e' r, scan_if_body ls b e true = .ok (b', e', r) → b' = b := by
  induction ls with
  | nil => intro b e b' e' r h; cases h
  | cons hd tl ih =>
    intro b e b' e' r h
    obtain ⟨w, l⟩ := hd
    by_cases hel : line_has_else l
    · rw [scan_if_body, if_pos hel] at h
      exact ih b e b' e' r h
    · replace hel : line_has_else l = false := by simpa using hel
      by_cases hen : line_has_endif l
      · rw [scan_if_body, if_neg (by simp [hel]), if_pos hen] at h
        injection h with h'
        injection h' with hb _
        exact hb.symm ▸ rfl
      · replace hen : line_has_endif l = false := by simpa using hen
        cases hbli : body_line_item l with
        | none =>
          simp only [scan_if_body, hel, hen, hbli, Bool.false_eq_true, if_false] at h
          exact ih b e b' e' r h
        | some res =>
          cases res with
          | error e0 =>
            simp only [scan_if_body, hel, hen, hbli, Bool.false_eq_true, if_false] at h
            cases h
          | ok item =>
            simp only [scan_if_body, hel, hen, hbli, Bool.false_eq_true, if_false,
              if_pos rfl] at h
            exact ih b (e ++ [item]) b' e' r h

/-- `parse_eq` falls through to a plain `Decl` when the token left of `=`
is not a `+`/`-` compound marker: the left operand is the `first`
argument, the value every token after `=`. -/
theorem parse_eq_decl (first : Token) (line : Tokens) (eqIdx : Nat) (t : Token)
    (h0 : eqIdx ≠ 0)
    (ht : line.get? (eqIdx - 1) = some t)
    (hp : t.str ≠ "+") (hpe : ¬ ends_with t.str "+" = true)
    (hm : t.str ≠ "-") (hme : ¬ ends_with t.str "-" = true) :
    parse_eq first line eqIdx = .ok (.Decl first (line.drop (eqIdx + 1))) := by
  simp only [parse_eq, h0, if_false, ht, hp, hpe, hm, hme, if_neg, ite_false,
    Bool.false_eq_true]

/-! ## Claim theorems -/

/-- Claim C3, counterexample: the line `endif : dep` satisfies the
claim's well-formedness conditions (first token a literal, a `:` token,
no `=` token, exactly one token left of `:`), yet the parser consumes it
through the `first.str == "endif"` skip and produces no `Item::Job` at
all. -/
theorem job_rule_keyword_target_skipped :
    parse_lines 9 [(0, [tokLit "endif", tokColon, tokLit "dep"])] []
      = some (.ok []) ∧
    List.countP Item.isJob [] = 0 :=
  ⟨rfl, rfl⟩

/-- Claim C3, amended: for every job-rule line whose first token is a
literal that is none of the keywords `endif`/`ifeq`/`ifneq`, whose line
has no `=` token and whose first `:` token is at index 1 (exactly one
token to its left), the parser appends exactly one `Item::Job` whose
target is the token left of `:`, whose dependencies are the tokens right
of `:` in order, and whose body is the maximal run of immediately
following non-zero-level lines, parsing then resuming at the first
zero-level line. -/
theorem job_rule_produces_single_job
    (fuel w : Nat) (line : Tokens) (rest : List (Nat × Tokens))
    (items : List Item) (first : Token)
    (h1 : line.head? = some first)
    (h2 : first.typ = TokenType.Literal)
    (h3 : first.str ≠ "endif") (h4 : first.str ≠ "ifeq") (h5 : first.str ≠ "ifneq")
    (h6 : line.findIdx? (fun t => decide (t.typ = TokenType.Equal)) = none)
    (h7 : line.findIdx? (fun t => decide (t.typ = TokenType.Colon)) = some 1) :
    parse_lines (fuel + 1) ((w, line) :: rest) items =
      parse_lines fuel (rest.dropWhile fun p => decide (¬ p.1 = 0))
        (items ++ [.Job first (line.drop 2)
          ((rest.takeWhile fun p => decide (¬ p.1 = 0)).map Prod.snd)]) := by
  simp only [parse_lines, h1, h2, h3, h4, h5, h6, h7, take_job_body_eq,
    if_neg, ite_false, or_self, Nat.lt_irrefl, gt_iff_lt, if_false]

/-- Claim C3 witness: a concrete job rule `out : in.c` with one indented
body line. -/
theorem job_rule_produces_single_job_instance :
    parse_lines (2 + 1)
      [(0, [tokLit "out", tokColon, tokLit "in.c"]),
       (1, [tokLit "cc"]), (0, [tokLit "other"])] [] =
      parse_lines 2
        ([(1, [tokLit "cc"]), (0, [tokLit "other"])].dropWhile
          fun p => decide (¬ p.1 = 0))
        ([] ++ [.Job (tokLit "out")
          ([tokLit "out", tokColon, tokLit "in.c"].drop 2)
          (([(1, [tokLit "cc"]), (0, [tokLit "other"])].takeWhile
            fun p => decide (¬ p.1 = 0)).map Prod.snd)]) :=
  job_rule_produces_single_job 2 0 _ _ _ _ rfl rfl (by decide) (by decide)
    (by decide) rfl rfl

/-- Claim C7: the compound-assignment offsets of `parse_eq`. A bare `+`
marker takes the right operand one position after `=` and the left
operand two positions before `=`; a bare `-` marker takes the right
operand two positions after `=` (one extra token of offset) and the left
operand two positions before `=`; a marker token merely ending in `+` or
`-` is itself the left operand with the right operand one position after
`=`; a missing right operand at the looked-up position is fatal. -/
theorem parse_eq_offsets :
    (∀ (f x m r : Token) (post : Tokens), m.str = "+" →
       parse_eq f ([x, m, tokEq, r] ++ post) 2 = .ok (.Expr x .PlusEqual r))
  ∧ (∀ (f x m w r : Token) (post : Tokens), m.str = "-" →
       parse_eq f ([x, m, tokEq, w, r] ++ post) 2 = .ok (.Expr x .MinusEqual r))
  ∧ (∀ (f m r : Token) (post : Tokens),
       ends_with m.str "+" = true → m.str ≠ "+" →
       parse_eq f ([m, tokEq, r] ++ post) 1 = .ok (.Expr m .PlusEqual r))
  ∧ (∀ (f m r : Token) (post : Tokens),
       ends_with m.str "-" = true → m.str ≠ "+" → ¬ ends_with m.str "+" = true →
       m.str ≠ "-" →
       parse_eq f ([m, tokEq, r] ++ post) 1 = .ok (.Expr m .MinusEqual r))
  ∧ (∀ (f x m : Token), m.str = "+" →
       parse_eq f [x, m, tokEq] 2 = .error .fatalNoRight)
  ∧ (∀ (f x m w : Token), m.str = "-" →
       parse_eq f [x, m, tokEq, w] 2 = .error .fatalNoRight) := by
  refine ⟨?_, ?_, ?_, ?_, ?_, ?_⟩
  · intro f x m r post hm
    simp [parse_eq, hm]
  · intro f x m w r post hm
    simp [parse_eq, hm, show ends_with "-" "+" = false from rfl]
  · intro f m r post h1 h2
    simp [parse_eq, h1, h2]
  · intro f m r post h1 h2 h3 h4
    simp [parse_eq, h1, h2, h3, h4]
  · intro f x m hm
    simp [parse_eq, hm]
  · intro f x m w hm
    simp [parse_eq, hm, show ends_with "-" "+" = false from rfl]

/-- Claim C7 witness: concrete instances of all six offset facts
(`x + = r`, `x - = w r`, `FOO+ = r`, `FOO- = r`, `x + =`, `x - = w`). -/
theorem parse_eq_offsets_instance :
    (parse_eq (tokLit "x") [tokLit "x", tokLit "+", tokEq, tokLit "r"] 2
       = .ok (.Expr (tokLit "x") .PlusEqual (tokLit "r")))
  ∧ (parse_eq (tokLit "x") [tokLit "x", tokLit "-", tokEq, tokLit "w", tokLit "r"] 2
       = .ok (.Expr (tokLit "x") .MinusEqual (tokLit "r")))
  ∧ (parse_eq (tokLit "FOO+") [tokLit "FOO+", tokEq, tokLit "r"] 1
       = .ok (.Expr (tokLit "FOO+") .PlusEqual (tokLit "r")))
  ∧ (parse_eq (tokLit "FOO-") [tokLit "FOO-", tokEq, tokLit "r"] 1
       = .ok (.Expr (tokLit "FOO-") .MinusEqual (tokLit "r")))
  ∧ (parse_eq (tokLit "x") [tokLit "x", tokLit "+", tokEq] 2
       = .error .fatalNoRight)
  ∧ (parse_eq (tokLit "x") [tokLit "x", tokLit "-", tokEq, tokLit "w"] 2
       = .error .fatalNoRight) := by
  refine ⟨?_, ?_, ?_, ?_, ?_, ?_⟩
  · exact parse_eq_offsets.1 (tokLit "x") (tokLit "x") (tokLit "+") (tokLit "r")
      [] rfl
  · exact parse_eq_offsets.2.1 (tokLit "x") (tokLit "x") (tokLit "-")
      (tokLit "w") (tokLit "r") [] rfl
  · exact parse_eq_offsets.2.2.1 (tokLit "FOO+") (tokLit "FOO+") (tokLit "r")
      [] (by decide) (by decide)
  · exact parse_eq_offsets.2.2.2.1 (tokLit "FOO-") (tokLit "FOO-") (tokLit "r")
      [] (by decide) (by decide) (by decide) (by decide)
  · exact parse_eq_offsets.2.2.2.2.1 (tokLit "x") (tokLit "x") (tokLit "+") rfl
  · exact parse_eq_offsets.2.2.2.2.2 (tokLit "x") (tokLit "x") (tokLit "-")
      (tokLit "w") rfl

/-- Claim C9: two inputs on which the parser dies with an out-of-range
index computation (modelled after the overflow-checked subtraction of the
default build profile) instead of any classified parse error: a
conditional-body line whose first token is the `=` token (`eq_idx - 1`
with `eq_idx = 0`), and a top-level line whose bare `+` marker sits at
index 0 so that `parse_eq` computes `eq_idx - 2` with `eq_idx = 1`. -/
theorem index_underflow_panics :
    (parse_lines 9 [(0, [tokLit "ifeq", tokLit "a", tokLit "b"]),
                    (0, [tokEq, tokLit "x"]), (0, [tokLit "endif"])] []
       = some (.error .fatalArith))
  ∧ (parse_lines 9 [(0, [⟨"+", TokenType.Literal⟩, tokEq, tokLit "x"])] []
       = some (.error .fatalArith))
  ∧ ErrorType.isClassified .fatalArith = false :=
  ⟨rfl, rfl, rfl⟩

/-- Claim C10: during a conditional-block scan, a line containing `else`
anywhere is consumed purely as the else marker — never checked for
`endif` and never accumulated — so a conditional whose sole `endif` sits
on a line that also contains `else` fails with `NoClosingEndif`; and the
else flag, once set, is never cleared, so the then-body never grows after
the first else-marker line. -/
theorem else_line_consumed_as_marker :
    (∀ ls b e b' e' r, scan_if_body ls b e true = .ok (b', e', r) → b' = b)
  ∧ (∀ (w : Nat) (line : Tokens) rest b e f, line_has_else line = true →
       scan_if_body ((w, line) :: rest) b e f = scan_if_body rest b e true)
  ∧ (parse_lines 9 [(0, [tokLit "ifeq", tokLit "a", tokLit "b"]),
                    (0, [tokLit "else", tokLit "endif"])] []
       = some (.error .noClosingEndif)) := by
  refine ⟨scan_if_body_then_frozen, ?_, rfl⟩
  intro w line rest b e f hel
  rw [scan_if_body, if_pos hel]

/-- Claim C10 witness: frozen then-body on a concrete scan that starts
with the else flag set, and a concrete line containing both `else` and
`endif` consumed purely as the else marker. -/
theorem else_line_consumed_as_marker_instance :
    ([Item.Decl (tokLit "x") []] = [Item.Decl (tokLit "x") []])
  ∧ (scan_if_body [(0, [tokLit "else", tokLit "endif"])] [] [] false
       = scan_if_body [] [] [] true) :=
  ⟨else_line_consumed_as_marker.1 [(0, [tokLit "endif"])]
     [Item.Decl (tokLit "x") []] [] _ _ _ rfl,
   else_line_consumed_as_marker.2.1 0 [tokLit "else", tokLit "endif"] [] [] []
     false rfl⟩

/-- Claim C4: a conditional block whose scan exhausts the stream without
reaching an `endif` line fails with `NoClosingEndif` (whatever benign
assignment lines the body held); a block whose scan reaches an `endif`
line succeeds, placing accumulated assignment items in the then-body when
they precede the else-marker line and in the else-body when they follow
it, and parsing resumes right after the `endif` line. -/
theorem conditional_block_endif_partition :
    (∀ (fuel w : Nat) (ifLine : Tokens) ls items first,
       ifLine.head? = some first → first.typ = TokenType.Literal →
       (first.str = "ifeq" ∨ first.str = "ifneq") →
       (∀ p ∈ ls, (line_has_else p.2 = true ∨ line_has_endif p.2 = false) ∧
          (line_has_else p.2 = false → benign p.2 = true)) →
       parse_lines (fuel + 1) ((w, ifLine) :: ls) items
         = some (.error .noClosingEndif))
  ∧ (∀ pre (w : Nat) (endifLine : Tokens) rest b e,
       (∀ p ∈ pre, line_has_else p.2 = false ∧ line_has_endif p.2 = false ∧
          benign p.2 = true) →
       line_has_else endifLine = false → line_has_endif endifLine = true →
       scan_if_body (pre ++ (w, endifLine) :: rest) b e false =
         .ok (b ++ body_items pre, e, rest))
  ∧ (∀ pre (w1 : Nat) (elseLine : Tokens) mid (w2 : Nat) (endifLine : Tokens)
        rest b e,
       (∀ p ∈ pre, line_has_else p.2 = false ∧ line_has_endif p.2 = false ∧
          benign p.2 = true) →
       (∀ p ∈ mid, line_has_else p.2 = false ∧ line_has_endif p.2 = false ∧
          benign p.2 = true) →
       line_has_else elseLine = true →
       line_has_else endifLine = false → line_has_endif endifLine = true →
       scan_if_body (pre ++ (w1, elseLine) :: (mid ++ (w2, endifLine) :: rest))
           b e false =
         .ok (b ++ body_items pre, e ++ body_items mid, rest)) := by
  refine ⟨?_, ?_, ?_⟩
  · intro fuel w ifLine ls items first h1 h2 h3 h4
    have hscan := scan_if_body_no_endif ls h4 [] [] false
    have hne : first.str ≠ "endif" := by
      rcases h3 with h3 | h3 <;> simp [h3]
    have hifs : first.str = "ifeq" ∨ first.str = "ifneq" := h3
    simp only [parse_lines, h1, h2, hne, hifs, hscan, if_true, if_neg,
      ite_false, if_pos, ite_true]
  · intro pre w endifLine rest b e hpre hel hen
    rw [scan_if_body_append_false pre hpre, scan_if_body,
      if_neg (by simp [hel]), if_pos hen]
  · intro pre w1 elseLine mid w2 endifLine rest b e hpre hmid hel hene henf
    rw [scan_if_body_append_false pre hpre, scan_if_body, if_pos hel,
      scan_if_body_append_true mid hmid, scan_if_body,
      if_neg (by simp [hene]), if_pos henf]

/-- Claim C4 witness: a concrete block missing its `endif`, a concrete
block `x = v` / `endif`, and a concrete block `x = v` / `else` / `y = w`
/ `endif`. -/
theorem conditional_block_endif_partition_instance :
    (parse_lines (5 + 1)
       [(0, [tokLit "ifeq", tokLit "a", tokLit "b"]),
        (0, [tokLit "x", tokEq, tokLit "v"])] []
       = some (.error .noClosingEndif))
  ∧ (scan_if_body
       ([(0, [tokLit "x", tokEq, tokLit "v"])] ++ (0, [tokLit "endif"]) :: [])
       [] [] false
       = .ok ([] ++ body_items [(0, [tokLit "x", tokEq, tokLit "v"])], [], []))
  ∧ (scan_if_body
       ([(0, [tokLit "x", tokEq, tokLit "v"])] ++ (0, [tokLit "else"]) ::
         ([(0, [tokLit "y", tokEq, tokLit "w"])] ++ (0, [tokLit "endif"]) :: []))
       [] [] false
       = .ok ([] ++ body_items [(0, [tokLit "x", tokEq, tokLit "v"])],
              [] ++ body_items [(0, [tokLit "y", tokEq, tokLit "w"])], [])) := by
  refine ⟨?_, ?_, ?_⟩
  · exact conditional_block_endif_partition.1 5 0 _ _ [] (tokLit "ifeq") rfl rfl
      (Or.inl rfl)
      (by intro p hp; rw [List.mem_singleton] at hp; subst hp
          exact ⟨Or.inr rfl, fun _ => rfl⟩)
  · exact conditional_block_endif_partition.2.1 _ 0 _ [] [] []
      (by intro p hp; rw [List.mem_singleton] at hp; subst hp
          exact ⟨rfl, rfl, rfl⟩) rfl rfl
  · exact conditional_block_endif_partition.2.2 _ 0 _ _ 0 _ [] [] []
      (by intro p hp; rw [List.mem_singleton] at hp; subst hp
          exact ⟨rfl, rfl, rfl⟩)
      (by intro p hp; rw [List.mem_singleton] at hp; subst hp
          exact ⟨rfl, rfl, rfl⟩) rfl rfl rfl

/-- Claim C8, counterexample: for the conditional-body assignment line
`A B = v` (first `=` at index 2), the shared sub-parser produces a `Decl`
whose left operand is `B` — the token immediately left of `=` — and not
the line's first token `A`, contradicting the claim for conditional-body
lines. -/
theorem body_decl_left_operand_not_first :
    parse_lines 9 [(0, [tokLit "ifeq", tokLit "a", tokLit "b"]),
                   (0, [tokLit "A", tokLit "B", tokEq, tokLit "v"]),
                   (0, [tokLit "endif"])] []
      = some (.ok [.If false (tokLit "a") (tokLit "b")
                     [.Decl (tokLit "B") [tokLit "v"]] []]) ∧
    tokLit "B" ≠ tokLit "A" :=
  ⟨rfl, by decide⟩

/-- Claim C8, amended: when the token immediately left of `=` is not a
`+`/`-` compound marker, the sub-parser produces a `Decl` whose value is
every token after `=` to the end of the line, and whose left operand is
the `first` token the caller hands over: at top level that is the line's
first token; inside a conditional body it is the token immediately left
of `=` (which coincides with the line's first token only when `=` is at
index 1). -/
theorem decl_left_operand :
    (∀ (fuel w : Nat) (line : Tokens) rest items first eqIdx t,
       line.head? = some first → first.typ = TokenType.Literal →
       first.str ≠ "endif" → first.str ≠ "ifeq" → first.str ≠ "ifneq" →
       line.findIdx? (fun tk => decide (tk.typ = TokenType.Equal)) = some eqIdx →
       line.get? (eqIdx - 1) = some t →
       t.str ≠ "+" → ¬ ends_with t.str "+" = true →
       t.str ≠ "-" → ¬ ends_with t.str "-" = true →
       parse_lines (fuel + 1) ((w, line) :: rest) items =
         parse_lines fuel rest (items ++ [.Decl first (line.drop (eqIdx + 1))]))
  ∧ (∀ (line : Tokens) eqIdx t,
       line.findIdx? (fun tk => decide (tk.typ = TokenType.Equal)) = some eqIdx →
       eqIdx ≠ 0 →
       line.get? (eqIdx - 1) = some t →
       t.str ≠ "+" → ¬ ends_with t.str "+" = true →
       t.str ≠ "-" → ¬ ends_with t.str "-" = true →
       body_line_item line = some (.ok (.Decl t (line.drop (eqIdx + 1))))) := by
  constructor
  · intro fuel w line rest items first eqIdx t h1 h2 h3 h4 h5 h6 ht hp hpe hm hme
    have h0 : eqIdx ≠ 0 := findIdx_eq_ne_zero line first eqIdx h1 h2 h6
    have hpe := parse_eq_decl first line eqIdx t h0 ht hp hpe hm hme
    simp only [parse_lines, h1, h2, h3, h4, h5, h6, hpe, if_neg, ite_false,
      or_self, if_false]
  · intro line eqIdx t h6 h0 ht hp hpe hm hme
    have hd := parse_eq_decl t line eqIdx t h0 ht hp hpe hm hme
    simp only [body_line_item, h6, h0, ht, hd, if_neg, ite_false]

/-- Claim C8 witness: the top-level line `x = v w` and the body line
`A B = v`. -/
theorem decl_left_operand_instance :
    (parse_lines (3 + 1) [(0, [tokLit "x", tokEq, tokLit "v", tokLit "w"])] [] =
       parse_lines 3 []
         ([] ++ [.Decl (tokLit "x")
           ([tokLit "x", tokEq, tokLit "v", tokLit "w"].drop (1 + 1))]))
  ∧ (body_line_item [tokLit "A", tokLit "B", tokEq, tokLit "v"] =
       some (.ok (.Decl (tokLit "B")
         ([tokLit "A", tokLit "B", tokEq, tokLit "v"].drop (2 + 1))))) :=
  ⟨decl_left_operand.1 3 0 _ [] [] (tokLit "x") 1 (tokLit "x") rfl rfl
     (by decide) (by decide) (by decide) rfl rfl
     (by decide) (by decide) (by decide) (by decide),
   decl_left_operand.2 _ 2 (tokLit "B") rfl (by decide) rfl
     (by decide) (by decide) (by decide) (by decide)⟩

/-! ## Executor lemmas -/

/-- Sequencing is associative. -/
theorem out_bind_assoc {α β γ : Type} (x : Out α) (f : α → St → Out β)
    (g : β → St → Out γ) :
    (x.bind f).bind g = x.bind fun a st => (f a st).bind g := by
  cases x <;> rfl

/-- The dependency fold absorbs a dead (exited/crashed/fuel-out)
accumulator: once the process has died nothing further runs. -/
theorem foldl_dep_step_absorb (jobs : List Job) (execDep : St → Job → Out Unit)
    (l : List String) :
    (∀ c st, List.foldl (dep_step jobs execDep) (.exited c st) l = .exited c st)
  ∧ (∀ st, List.foldl (dep_step jobs execDep) (.crashed st) l = .crashed st)
  ∧ (List.foldl (dep_step jobs execDep) .fuelOut l = .fuelOut) := by
  induction l with
  | nil => exact ⟨fun _ _ => rfl, fun _ => rfl, rfl⟩
  | cons d tl ih =>
    refine ⟨fun c st => ?_, fun st => ?_, ?_⟩
    · rw [List.foldl_cons,
        show dep_step jobs execDep (.exited c st) d = .exited c st from rfl]
      exact ih.1 c st
    · rw [List.foldl_cons,
        show dep_step jobs execDep (.crashed st) d = .crashed st from rfl]
      exact ih.2.1 st
    · rw [List.foldl_cons,
        show dep_step jobs execDep .fuelOut d = .fuelOut from rfl]
      exact ih.2.2

/-- The dependency fold commutes with sequencing: folding from a bound
accumulator is binding first and folding from each continuation. -/
theorem foldl_dep_step_bind {α : Type} (jobs : List Job)
    (execDep : St → Job → Out Unit) (l : List String) (x : Out α)
    (f : α → St → Out (List Nat)) :
    List.foldl (dep_step jobs execDep) (x.bind f) l =
      x.bind fun a st => List.foldl (dep_step jobs execDep) (f a st) l := by
  cases x with
  | ok a st => rfl
  | exited c st =>
    rw [show Out.bind (Out.exited c st) f = Out.exited c st from rfl]
    rw [show (Out.bind (Out.exited c st) fun a st =>
          List.foldl (dep_step jobs execDep) (f a st) l) = Out.exited c st from rfl]
    exact (foldl_dep_step_absorb jobs execDep l).1 c st
  | crashed st =>
    rw [show Out.bind (Out.crashed st) f = Out.crashed st from rfl]
    rw [show (Out.bind (Out.crashed st) fun a st =>
          List.foldl (dep_step jobs execDep) (f a st) l) = Out.crashed st from rfl]
    exact (foldl_dep_step_absorb jobs execDep l).2.1 st
  | fuelOut =>
    rw [show Out.bind (Out.fuelOut : Out α) f = Out.fuelOut from rfl]
    rw [show (Out.bind (Out.fuelOut : Out α) fun a st =>
          List.foldl (dep_step jobs execDep) (f a st) l) = Out.fuelOut from rfl]
    exact (foldl_dep_step_absorb jobs execDep l).2.2

/-- The dependency fold over a pure run: when every job-type dependency's
execution completes normally without touching the filesystem and every
other dependency exists, the fold returns exactly the modification times
of the non-job dependencies, in order, over the unchanged filesystem. -/
theorem collect_times_pure (jobs : List Job) (execDep : St → Job → Out Unit)
    (fs0 : FS) :
    ∀ (l : List String) (acc : List Nat) (s : St), s.fs = fs0 →
    (∀ dep ∈ l, ∀ j, find_job jobs dep = some j →
        ∀ s' : St, ∃ lg, execDep s' j = .ok () ⟨s'.fs, lg⟩) →
    (∀ dep ∈ l, find_job jobs dep = none → ∃ t, fs0 dep = some t) →
    ∃ lg, collect_times_from jobs execDep l (.ok acc s) =
      .ok (acc ++ l.filterMap fun dep =>
            match find_job jobs dep with
            | some _ => none
            | none => fs0 dep) ⟨fs0, lg⟩ := by
  intro l
  induction l with
  | nil =>
    intro acc s hs _ _
    refine ⟨s.log, ?_⟩
    obtain ⟨sfs, slog⟩ := s
    simp only at hs
    subst hs
    simp [collect_times_from]
  | cons d tl ih =>
    intro acc s hs hjob hpath
    have hjtl := fun dep hdep => hjob dep (List.mem_cons_of_mem _ hdep)
    have hptl := fun dep hdep => hpath dep (List.mem_cons_of_mem _ hdep)
    rw [collect_times_from, List.foldl_cons]
    cases hfj : find_job jobs d with
    | some j =>
      obtain ⟨lg1, hexec⟩ := hjob d (List.mem_cons_self _ _) j hfj s
      have hstep : dep_step jobs execDep (.ok acc s) d = .ok acc ⟨s.fs, lg1⟩ := by
        simp only [dep_step, Out.bind, hfj, hexec]
      rw [hstep]
      obtain ⟨lg, hrest⟩ := ih acc ⟨s.fs, lg1⟩ (by simpa using hs) hjtl hptl
      refine ⟨lg, ?_⟩
      rw [collect_times_from] at hrest
      rw [hrest]
      congr 1
      simp [List.filterMap_cons, hfj]
    | none =>
      obtain ⟨t, ht⟩ := hpath d (List.mem_cons_self _ _) hfj
      have ht' : s.fs d = some t := by rw [hs]; exact ht
      have hstep : dep_step jobs execDep (.ok acc s) d = .ok (acc ++ [t]) s := by
        simp only [dep_step, Out.bind, hfj, ht']
      rw [hstep]
      obtain ⟨lg, hrest⟩ := ih (acc ++ [t]) s hs hjtl hptl
      refine ⟨lg, ?_⟩
      rw [collect_times_from] at hrest
      rw [hrest]
      congr 1
      simp [List.filterMap_cons, hfj, ht]

/-- Claim C2: whenever the dependency fold completes normally and the
job's target does not exist on the (post-fold) filesystem,
`needs_rebuild` returns true — whatever modification times the
dependencies contributed. -/
theorem needs_rebuild_missing_target
    (shell : Shell) (jobs : List Job) (fuel : Nat) (st : St) (job : Job)
    (times : List Nat) (st' : St)
    (hfold : collect_times jobs (execute_job_if_needed shell jobs fuel)
        job.dependencies st = .ok times st')
    (htgt : st'.fs job.target = none) :
    needs_rebuild shell jobs fuel st job = .ok true st' := by
  rw [needs_rebuild, needs_rebuild_with, hfold]
  simp only [Out.bind, finish_rebuild, htgt]

/-- Claim C2 witness: target `out2` missing, plain dependency `in.c`
present with mtime 5. -/
theorem needs_rebuild_missing_target_instance :
    needs_rebuild shellNopW [] 1 stExample jobMissW = .ok true stExample :=
  needs_rebuild_missing_target shellNopW [] 1 stExample jobMissW [5] stExample
    rfl rfl

/-- Claim C1: for a job whose target exists with modification time `tt`,
when every job-type dependency's recursive execution completes normally
without changing the filesystem and every non-job dependency exists,
`needs_rebuild` returns true if and only if some dependency that is not
the target of another job has modification time strictly greater than
`tt`; job-type dependencies contribute no timestamp to the
comparison. -/
theorem needs_rebuild_mtime_iff
    (shell : Shell) (jobs : List Job) (fuel : Nat) (st : St) (job : Job) (tt : Nat)
    (htgt : st.fs job.target = some tt)
    (hjob : ∀ dep ∈ job.dependencies, ∀ j, find_job jobs dep = some j →
        ∀ s : St, ∃ lg, execute_job_if_needed shell jobs fuel s j
          = .ok () ⟨s.fs, lg⟩)
    (hpath : ∀ dep ∈ job.dependencies, find_job jobs dep = none →
        ∃ t, st.fs dep = some t) :
    ∃ lg b, needs_rebuild shell jobs fuel st job = .ok b ⟨st.fs, lg⟩ ∧
      (b = true ↔ ∃ dep ∈ job.dependencies, find_job jobs dep = none ∧
          ∃ t, st.fs dep = some t ∧ tt < t) := by
  obtain ⟨lg, hc⟩ := collect_times_pure jobs
    (execute_job_if_needed shell jobs fuel) st.fs job.dependencies [] st rfl
    hjob hpath
  refine ⟨lg, (job.dependencies.filterMap fun dep =>
      match find_job jobs dep with
      | some _ => none
      | none => st.fs dep).any (fun t => decide (tt < t)), ?_, ?_⟩
  · rw [needs_rebuild, needs_rebuild_with, collect_times, hc]
    simp only [Out.bind, finish_rebuild, htgt, List.nil_append]
  · rw [List.any_eq_true]
    constructor
    · rintro ⟨t, hmem, hlt⟩
      rw [List.mem_filterMap] at hmem
      obtain ⟨dep, hdep, hfd⟩ := hmem
      refine ⟨dep, hdep, ?_⟩
      cases hfj : find_job jobs dep with
      | some j => rw [hfj] at hfd; cases hfd
      | none =>
        rw [hfj] at hfd
        exact ⟨rfl, t, hfd, by simpa using hlt⟩
    · rintro ⟨dep, hdep, hfj, t, hfs, hlt⟩
      refine ⟨t, ?_, by simpa using hlt⟩
      rw [List.mem_filterMap]
      refine ⟨dep, hdep, ?_⟩
      rw [hfj]
      exact hfs

/-- Claim C1 witness: target `out` (mtime 3), single plain dependency
`in.c` (mtime 5), no job-type dependencies. -/
theorem needs_rebuild_mtime_iff_instance :
    ∃ lg b, needs_rebuild shellNopW [] 1 stExample jobPlainW
        = .ok b ⟨stExample.fs, lg⟩ ∧
      (b = true ↔ ∃ dep ∈ jobPlainW.dependencies, find_job [] dep = none ∧
          ∃ t, stExample.fs dep = some t ∧ 3 < t) :=
  needs_rebuild_mtime_iff shellNopW [] 1 stExample jobPlainW 3 rfl
    (by intro dep hdep j hj; simp [find_job] at hj)
    (by
      intro dep hdep _
      have : dep = "in.c" := by simpa [jobPlainW] using hdep
      subst this
      exact ⟨5, rfl⟩)

/-- Claim C5: a dependency that is the target of another job is fully
executed inside the dependent's rebuild decision — the decision is a
strict continuation of that execution's outcome, whatever it is — and the
dependent's command lines run (or its nothing-to-do notice prints) only
after the decision completes, whichever way it goes. -/
theorem dependency_executes_before_dependent
    (shell : Shell) (jobs : List Job) (fuel : Nat) (st : St) (job : Job)
    (pre post : List String) (dep : String) (j : Job) (times : List Nat) (st1 : St)
    (hsplit : job.dependencies = pre ++ dep :: post)
    (hfind : find_job jobs dep = some j)
    (hpre : collect_times jobs (execute_job_if_needed shell jobs fuel) pre st
        = .ok times st1) :
    (needs_rebuild shell jobs fuel st job =
       (execute_job_if_needed shell jobs fuel st1 j).bind fun _ st2 =>
         (collect_times_from jobs (execute_job_if_needed shell jobs fuel) post
           (.ok times st2)).bind (finish_rebuild job))
  ∧ (∀ st0 b st', needs_rebuild shell jobs fuel st0 job = .ok b st' →
       execute_job_if_needed shell jobs (fuel + 1) st0 job =
         if b then run_body shell st' job.body
         else .ok () ⟨st'.fs, st'.log ++ [.nothingToDo job.target]⟩) := by
  constructor
  · rw [needs_rebuild, needs_rebuild_with, collect_times, hsplit,
      collect_times_from, List.foldl_append, List.foldl_cons]
    rw [collect_times, collect_times_from] at hpre
    rw [hpre]
    rw [show dep_step jobs (execute_job_if_needed shell jobs fuel)
          (.ok times st1) dep
        = (execute_job_if_needed shell jobs fuel st1 j).bind
            (fun _ st' => .ok times st') from by
      simp only [dep_step, Out.bind, hfind]]
    rw [foldl_dep_step_bind, out_bind_assoc]
    rfl
  · intro st0 b st' h
    rw [needs_rebuild] at h
    cases b
    · simp only [execute_job_if_needed, h, Bool.false_eq_true, if_false]
    · simp only [execute_job_if_needed, h, if_true]

/-- Claim C5 witness: `out` depends on `a`, the target of `jobDepW`. -/
theorem dependency_executes_before_dependent_instance :
    (needs_rebuild shellNopW jobsW 2 stExample jobChainW =
       (execute_job_if_needed shellNopW jobsW 2 stExample jobDepW).bind
         fun _ st2 =>
           (collect_times_from jobsW (execute_job_if_needed shellNopW jobsW 2) []
             (.ok [] st2)).bind (finish_rebuild jobChainW))
  ∧ (execute_job_if_needed shellNopW jobsW (2 + 1) stExample jobChainW =
       if false then run_body shellNopW stExample jobChainW.body
       else .ok () ⟨stExample.fs,
         stExample.log ++ [.nothingToDo jobChainW.target]⟩) :=
  ⟨(dependency_executes_before_dependent shellNopW jobsW 2 stExample jobChainW
      [] [] "a" jobDepW [] stExample rfl rfl rfl).1,
   (dependency_executes_before_dependent shellNopW jobsW 2 stExample jobChainW
      [] [] "a" jobDepW [] stExample rfl rfl rfl).2 stExample false stExample
     rfl⟩

/-- Claim C6: a command line whose child completes with a well-defined
non-zero exit code makes the tool echo the command, relay the child's
stderr when non-empty, print the abnormal-exit message carrying that
code, and die with process exit code 1 — independently of every
subsequent command line, which therefore never runs; a child with exit
code 0 or an undefined (signal) status is non-fatal and execution
proceeds to the rest of the body; and a dead process absorbs every
continuation, so no sibling work ever runs after the exit. -/
theorem nonzero_exit_aborts :
    (∀ (shell : Shell) (st : St) (line : List String) (fs' : FS)
        (out : CmdOutput) (c : Int),
       shell st.fs (render_cmd line) = (fs', out) → out.code = some c → c ≠ 0 →
       ∀ rest, run_body shell st (line :: rest) =
         .exited 1 ⟨fs', (st.log ++ [.echoCmd (render_cmd line)] ++
           (if out.stderr = "" then [] else [.childStderr out.stderr])) ++
           [.abnormalExit c]⟩)
  ∧ (∀ (shell : Shell) (st : St) (line : List String) (fs' : FS)
        (out : CmdOutput),
       shell st.fs (render_cmd line) = (fs', out) →
       (out.code = some 0 ∨ out.code = none) →
       ∀ rest, run_body shell st (line :: rest) =
         run_body shell ⟨fs', st.log ++ [.echoCmd (render_cmd line)] ++
           (if out.stdout = "" then [] else [.childStdout out.stdout])⟩ rest)
  ∧ (∀ (β : Type) (f : Unit → St → Out β) (c : Nat) (st' : St),
       Out.bind (.exited c st') f = .exited c st') := by
  refine ⟨?_, ?_, fun β f c st' => rfl⟩
  · intro shell st line fs' out c hsh hcode hc rest
    simp only [run_body, hsh, hcode, hc, ne_eq, not_false_iff, if_true,
      ite_true]
  · intro shell st line fs' out hsh hcode rest
    rcases hcode with hcode | hcode
    · simp only [run_body, hsh, hcode, ne_eq, not_true_eq_false, if_false,
        ite_false]
    · simp only [run_body, hsh, hcode]

/-- Claim C6 witness: a single command whose child exits with code 2 and
stderr `boom` (the spec's end-to-end scenario 3). -/
theorem nonzero_exit_aborts_instance :
    run_body shellFailW stExample [["false"]] =
      .exited 1 ⟨stExample.fs,
        (stExample.log ++ [.echoCmd (render_cmd ["false"])] ++
          (if ("boom" : String) = "" then [] else [.childStderr "boom"])) ++
        [.abnormalExit 2]⟩ :=
  nonzero_exit_aborts.1 shellFailW stExample ["false"] stExample.fs
    ⟨some 2, "", "boom"⟩ 2 rfl rfl (by decide) []

end Buildfile
